import Mathlib

/-!
# Shallow embedding of `src/Santipur_ndvi.js`

The script is a Google Earth Engine (EE) dataflow program.  We embed the
dataflow values it builds:

* a pixel is a point of the plane (`ℚ × ℚ`, longitude/latitude);
* an `EEImage` carries a band-name list, a total per-band value function and a
  per-pixel validity mask (the script never produces per-band masks that
  differ, so one shared mask per image is faithful for everything it does);
* an image collection is a `List` of images; a raw catalog image additionally
  carries its acquisition date and footprint, and the dataset catalog is a
  function from dataset id to its raw image list (the part of EE outside this
  repository);
* time is measured in fractional calendar years, so `ee.Date.fromYMD(y,1,1)`
  is `y` and advancing it by one year is `y + 1`;
* an operation that EE fails on (selecting a missing band, computing a
  normalized difference of missing bands) returns `none`, and mapping a
  fallible function over a collection (`optMap`) fails iff it fails on some
  element;
* `x / 0 = 0` in `ℚ` stands in for EE's handling of a zero denominator in
  `normalizedDifference` (the value at such a degenerate pixel never matters
  to any claim);
* `reduceRegion` at a geometry and scale reduces over a finite sample grid of
  the geometry with spacing equal to the scale.
-/

abbrev Pix := ℚ × ℚ

/-- An axis-aligned rectangle, as built by `ee.Geometry.Rectangle`. -/
structure Rect where
  xmin : ℚ
  ymin : ℚ
  xmax : ℚ
  ymax : ℚ
deriving DecidableEq

def Rect.containsB (r : Rect) (p : Pix) : Bool :=
  decide (r.xmin ≤ p.1) && decide (p.1 ≤ r.xmax) &&
    decide (r.ymin ≤ p.2) && decide (p.2 ≤ r.ymax)

def Rect.intersectsB (r g : Rect) : Bool :=
  decide (r.xmin ≤ g.xmax) && decide (g.xmin ≤ r.xmax) &&
    decide (r.ymin ≤ g.ymax) && decide (g.ymin ≤ r.ymax)

/-- An EE image: band names, a total per-band value function, a per-pixel
validity mask shared by all bands, and numeric metadata properties. -/
@[ext]
structure EEImage where
  bands : List String
  val : String → Pix → ℚ
  mask : Pix → Bool
  props : String → Option ℚ

/-- `ee.Image.constant c`. -/
def EEImage.constant (c : ℚ) : EEImage :=
  ⟨["constant"], fun _ _ => c, fun _ => true, fun _ => none⟩

/-- `img.select(b)`: fails when the band is absent; the selected image answers
every band query with the selected band's values. -/
def EEImage.select (img : EEImage) (b : String) : Option EEImage :=
  if b ∈ img.bands then
    some ⟨[b], fun _ p => img.val b p, img.mask, img.props⟩
  else none

/-- `img.rename(b)` for the single-band images the script renames. -/
def EEImage.rename (img : EEImage) (b : String) : EEImage :=
  { img with bands := [b] }

/-- `a.addBands(b)`: appends bands; a band-name lookup finds the first
occurrence, and validity requires both inputs valid. -/
def EEImage.addBands (a b : EEImage) : EEImage :=
  ⟨a.bands ++ b.bands,
   fun n p => if n ∈ a.bands then a.val n p else b.val n p,
   fun p => a.mask p && b.mask p,
   a.props⟩

def EEImage.pointwise (img : EEImage) (f : ℚ → ℚ) : EEImage :=
  { img with val := fun n p => f (img.val n p) }

/-- `img.eq(c)`. -/
def EEImage.eqC (img : EEImage) (c : ℚ) : EEImage :=
  img.pointwise (fun v => if v = c then 1 else 0)

/-- `img.neq(c)`. -/
def EEImage.neqC (img : EEImage) (c : ℚ) : EEImage :=
  img.pointwise (fun v => if v = c then 0 else 1)

/-- `img.lt(c)`. -/
def EEImage.ltC (img : EEImage) (c : ℚ) : EEImage :=
  img.pointwise (fun v => if v < c then 1 else 0)

/-- `img.gt(c)`. -/
def EEImage.gtC (img : EEImage) (c : ℚ) : EEImage :=
  img.pointwise (fun v => if c < v then 1 else 0)

/-- `a.or(b)`: 1 where either value is nonzero, valid where both are valid. -/
def EEImage.orI (a b : EEImage) : EEImage :=
  ⟨a.bands,
   fun n p => if a.val n p ≠ 0 ∨ b.val n p ≠ 0 then 1 else 0,
   fun p => a.mask p && b.mask p,
   a.props⟩

/-- `a.multiply(b)`. -/
def EEImage.multiply (a b : EEImage) : EEImage :=
  ⟨a.bands,
   fun n p => a.val n p * b.val n p,
   fun p => a.mask p && b.mask p,
   a.props⟩

/-- The value a mask image contributes at a pixel (its first band). -/
def EEImage.v1 (m : EEImage) (p : Pix) : ℚ :=
  m.val (m.bands.headD "constant") p

/-- `img.updateMask(m)`: a pixel stays valid iff it was valid and the mask
image is valid and nonzero there. -/
def EEImage.updateMask (img m : EEImage) : EEImage :=
  { img with mask := fun p => img.mask p && (m.mask p && decide (m.v1 p ≠ 0)) }

/-- `img.clip(g)`. -/
def EEImage.clip (img : EEImage) (g : Rect) : EEImage :=
  { img with mask := fun p => img.mask p && g.containsB p }

/-- `img.set(k, v)`. -/
def EEImage.setProp (img : EEImage) (k : String) (v : ℚ) : EEImage :=
  { img with props := fun k2 => if k2 = k then some v else img.props k2 }

/-- `img.normalizedDifference([b1, b2])`: fails when a band is absent. -/
def EEImage.normalizedDifference (img : EEImage) (b1 b2 : String) :
    Option EEImage :=
  if b1 ∈ img.bands ∧ b2 ∈ img.bands then
    some ⟨["nd"],
          fun _ p =>
            (img.val b1 p - img.val b2 p) / (img.val b1 p + img.val b2 p),
          img.mask, img.props⟩
  else none

/-- A catalog image: pixel data plus acquisition date (fractional years) and
footprint. -/
structure RawImage where
  img : EEImage
  date : ℚ
  footprint : Rect

/-- The EE dataset catalog: dataset id to raw image list.  This is the input
of the script, not code of the repository. -/
abbrev Catalog := String → List RawImage

/-- `col.filterDate(s, e)` (half-open interval). -/
def filterDate (c : List RawImage) (s e : ℚ) : List RawImage :=
  c.filter (fun r => decide (s ≤ r.date) && decide (r.date < e))

/-- `col.filterBounds(g)`. -/
def filterBounds (c : List RawImage) (g : Rect) : List RawImage :=
  c.filter (fun r => r.footprint.intersectsB g)

/-- Mapping a fallible function over a collection: EE errors iff the function
errors on some element. -/
def optMap (f : α → Option β) : List α → Option (List β)
  | [] => some []
  | x :: xs =>
    match f x, optMap f xs with
    | some y, some ys => some (y :: ys)
    | _, _ => none

/-- The valid values of band `b` at pixel `p` across a collection. -/
def bandVals (imgs : List EEImage) (b : String) (p : Pix) : List ℚ :=
  imgs.filterMap (fun i => if i.mask p then some (i.val b p) else none)

/-- Insertion into a sorted list of rationals. -/
def insertSorted (x : ℚ) : List ℚ → List ℚ
  | [] => [x]
  | y :: ys => if x ≤ y then x :: y :: ys else y :: insertSorted x ys

/-- Insertion sort on rationals. -/
def sortQ : List ℚ → List ℚ
  | [] => []
  | x :: xs => insertSorted x (sortQ xs)

/-- The median of a list of rationals: middle element of the sorted list, or
the mean of the two middle elements for an even length.  `none` on `[]`. -/
def med (l : List ℚ) : Option ℚ :=
  match l with
  | [] => none
  | _ :: _ =>
    let s := sortQ l
    let n := l.length
    some (if n % 2 = 1 then s.getD (n / 2) 0
          else (s.getD (n / 2 - 1) 0 + s.getD (n / 2) 0) / 2)

/-- The minimum of a list of rationals, `none` on `[]`. -/
def minList : List ℚ → Option ℚ
  | [] => none
  | x :: xs => some (xs.foldl min x)

/-- `col.median()` over the NDVI band: per-pixel median of the valid values,
masked where no value is valid; collection reducers keep the band name. -/
def medianComposite (imgs : List EEImage) : EEImage :=
  ⟨["NDVI"],
   fun _ p => (med (bandVals imgs "NDVI" p)).getD 0,
   fun p => decide (bandVals imgs "NDVI" p ≠ []),
   fun _ => none⟩

/-- `col.reduce(ee.Reducer.min())` over the NDVI band (`.reduce` renames the
output band with the reducer suffix). -/
def minComposite (imgs : List EEImage) : EEImage :=
  ⟨["NDVI_min"],
   fun _ p => (minList (bandVals imgs "NDVI" p)).getD 0,
   fun p => decide (bandVals imgs "NDVI" p ≠ []),
   fun _ => none⟩

/-- The `(t, NDVI)` observations `ee.Reducer.linearFit()` sees at a pixel:
one pair per collection image that is valid there
(the script reduces `yearCollection.select(['t','NDVI'])`, so `t` is the
x input and `NDVI` the y input). -/
def pixelPairs (imgs : List EEImage) (p : Pix) : List (ℚ × ℚ) :=
  imgs.filterMap
    (fun i => if i.mask p then some (i.val "t" p, i.val "NDVI" p) else none)

def sumFst (pts : List (ℚ × ℚ)) : ℚ := (pts.map Prod.fst).sum
def sumSnd (pts : List (ℚ × ℚ)) : ℚ := (pts.map Prod.snd).sum
def sumFstSq (pts : List (ℚ × ℚ)) : ℚ := (pts.map (fun q => q.1 ^ 2)).sum
def sumSndSq (pts : List (ℚ × ℚ)) : ℚ := (pts.map (fun q => q.2 ^ 2)).sum
def sumProd (pts : List (ℚ × ℚ)) : ℚ := (pts.map (fun q => q.1 * q.2)).sum

/-- The determinant `n·Σx² − (Σx)²` of the normal equations. -/
def lfDet (pts : List (ℚ × ℚ)) : ℚ :=
  (pts.length : ℚ) * sumFstSq pts - sumFst pts ^ 2

/-- The `scale` output of `ee.Reducer.linearFit()`: the ordinary
least-squares slope, undefined when the determinant vanishes. -/
def linearFitScale (pts : List (ℚ × ℚ)) : Option ℚ :=
  if lfDet pts = 0 then none
  else some (((pts.length : ℚ) * sumProd pts - sumFst pts * sumSnd pts) /
    lfDet pts)

/-- The `offset` output of `ee.Reducer.linearFit()`. -/
def linearFitOffset (pts : List (ℚ × ℚ)) : Option ℚ :=
  match linearFitScale pts with
  | none => none
  | some b => some ((sumSnd pts - b * sumFst pts) / (pts.length : ℚ))

/-- `paired.reduce(ee.Reducer.linearFit())`: bands `scale` and `offset`,
masked where the fit is undefined. -/
def linearFitImage (imgs : List EEImage) : EEImage :=
  ⟨["scale", "offset"],
   fun n p =>
     if n = "offset" then (linearFitOffset (pixelPairs imgs p)).getD 0
     else (linearFitScale (pixelPairs imgs p)).getD 0,
   fun p => (linearFitScale (pixelPairs imgs p)).isSome,
   fun _ => none⟩

/-- The sample grid `reduceRegion` reduces over: points of the rectangle
spaced `s` apart starting at its lower-left corner. -/
def sampleGrid (g : Rect) (s : ℚ) : List Pix :=
  let nx := (⌊(g.xmax - g.xmin) / s⌋).toNat + 1
  let ny := (⌊(g.ymax - g.ymin) / s⌋).toNat + 1
  (List.range nx).flatMap
    (fun i : ℕ => (List.range ny).map
      (fun j : ℕ => (g.xmin + (i : ℚ) * s, g.ymin + (j : ℚ) * s)))

/-- `img.reduceRegion(ee.Reducer.mean(), g, s)` on band `b`: mean of the
valid sampled values, `null` when none is valid. -/
def reduceRegionMean (img : EEImage) (b : String) (g : Rect) (s : ℚ) :
    Option ℚ :=
  let vs := (sampleGrid g s).filterMap
    (fun p => if img.mask p then some (img.val b p) else none)
  if vs.isEmpty then none else some (vs.sum / (vs.length : ℚ))

/-- `img.reduceRegion(ee.Reducer.sum(), g, s)` on band `b`. -/
def reduceRegionSum (img : EEImage) (b : String) (g : Rect) (s : ℚ) : ℚ :=
  ((sampleGrid g s).filterMap
    (fun p => if img.mask p then some (img.val b p) else none)).sum

/-- `ee.Image.pixelArea()`, with the per-pixel area an external input. -/
def pixelAreaImg (areaF : Pix → ℚ) : EEImage :=
  ⟨["area"], fun _ p => areaF p, fun _ => true, fun _ => none⟩

/-! ## The script (`src/Santipur_ndvi.js`) -/

/-- Line 8: `var sensor = 'S2'`. -/
def sensor : String := "S2"

/-- Line 9: `var yearStart = 2018`. -/
def yearStart : ℚ := 2018

/-- Line 10: `var yearEnd = 2023`. -/
def yearEnd : ℚ := 2023

/-- Line 11: `var region = ee.Geometry.Rectangle([88.35, 23.05, 88.55, 23.35])`. -/
def region : Rect := ⟨88.35, 23.05, 88.55, 23.35⟩

/-- Line 12: `var studyScale = (sensor === 'S2') ? 10 : 30`. -/
def studyScale : ℚ := if sensor = "S2" then 10 else 30

/-- Lines 16–50: the robust Sentinel-2 mask.  `ee.Algorithms.If` evaluates
only the taken branch, so each `select` happens under its `contains` guard. -/
def maskS2SR (image : EEImage) : Option EEImage :=
  let bnames := image.bands
  (if "SCL" ∈ bnames then
      (image.select "SCL").map (fun s =>
        (((s.eqC 4).orI (s.eqC 5)).orI (s.eqC 6)).orI (s.eqC 7))
    else some (EEImage.constant 1)).bind fun sclMask =>
  (if "QA60" ∈ bnames then
      (image.select "QA60").map (fun q => q.eqC 0)
    else if "MSK_CLDPRB" ∈ bnames then
      (image.select "MSK_CLDPRB").map (fun m => m.ltC 50)
    else some (EEImage.constant 1)).map fun qaMask =>
  image.updateMask (sclMask.orI qaMask)

/-- Bitwise AND against a constant, for `QA_PIXEL` (integer-valued bands). -/
def EEImage.bitAndC (img : EEImage) (c : ℕ) : EEImage :=
  img.pointwise (fun v => ((v.floor.toNat.land c : ℕ) : ℚ))

/-- Lines 53–59: the Landsat-8 mask. -/
def maskL8SR (image : EEImage) : Option EEImage :=
  (image.select "QA_PIXEL").map fun qa =>
    image.updateMask (((qa.bitAndC 8).eqC 0).multiply ((qa.bitAndC 16).eqC 0))

/-- Lines 62–68: add the NDVI band. -/
def addNDVIBands (img : EEImage) : Option EEImage :=
  if sensor = "S2" then
    (img.normalizedDifference "B8" "B4").map
      (fun nd => img.addBands (nd.rename "NDVI"))
  else
    (img.normalizedDifference "SR_B5" "SR_B4").map
      (fun nd => img.addBands (nd.rename "NDVI"))

/-- Lines 71–87: the collection for a year — filter dates to the year,
filter bounds to the region, map the cloud mask, map the NDVI band. -/
def collectionForYear (cat : Catalog) (y : ℚ) : Option (List EEImage) :=
  if sensor = "S2" then
    (optMap maskS2SR
      ((filterBounds (filterDate (cat "COPERNICUS/S2_SR") y (y + 1))
        region).map RawImage.img)).bind
      (fun masked => optMap addNDVIBands masked)
  else
    (optMap maskL8SR
      ((filterBounds (filterDate (cat "LANDSAT/LC08/C02/T1_L2") y (y + 1))
        region).map RawImage.img)).bind
      (fun masked => optMap addNDVIBands masked)

/-- Line 90: `ee.List.sequence(yearStart, yearEnd)`. -/
def years : List ℚ :=
  (List.range ((⌊yearEnd - yearStart⌋).toNat + 1)).map
    (fun i : ℕ => yearStart + (i : ℚ))

/-- Lines 101–111: one yearly image — the median NDVI composite clipped to
the region when the year has images, else a constant −9999 NDVI image —
with the constant year band `t` added and the `year` property set. -/
def yearlyImage (cat : Catalog) (y : ℚ) : Option EEImage :=
  (collectionForYear cat y).bind fun col =>
  (optMap (fun i => i.select "NDVI") col).map fun ndviCol =>
    let m := if 0 < col.length then (medianComposite ndviCol).clip region
             else ((EEImage.constant (-9999)).clip region).rename "NDVI"
    ((m.addBands ((EEImage.constant y).rename "t")).setProp "year" y)

/-- Lines 101–113: `yearlyList` / `yearCollection`. -/
def yearlyListDef (cat : Catalog) : Option (List EEImage) :=
  optMap (yearlyImage cat) years

/-- Lines 122–128: the fitted slope band, renamed `NDVI_slope_per_year` and
masked where the minimum NDVI across the years equals −9999. -/
def slopeFinal (cat : Catalog) : Option EEImage :=
  (yearlyListDef cat).bind fun L =>
  ((linearFitImage L).select "scale").bind fun sc =>
  (optMap (fun i => i.select "NDVI") L).map fun sel =>
    (sc.rename "NDVI_slope_per_year").updateMask
      ((minComposite sel).neqC (-9999))

/-- A reported feature of `meanPerYearFC`. -/
structure Feature where
  year : ℚ
  meanNDVI : Option ℚ
deriving DecidableEq

/-- Lines 133–143: one feature per yearly image, with the year property and
the regional mean NDVI at the study scale. -/
def meanPerYearFC (cat : Catalog) : Option (List Feature) :=
  (yearlyListDef cat).map fun L =>
    L.map (fun img =>
      ⟨(img.props "year").getD 0,
       reduceRegionMean img "NDVI" region studyScale⟩)

/-- Lines 146–148: the chart plots `meanNDVI` against `year`, one point per
feature, in order. -/
def chartData (cat : Catalog) : Option (List (ℚ × Option ℚ)) :=
  (meanPerYearFC cat).map fun F => F.map (fun f => (f.year, f.meanNDVI))

/-- Lines 151–154: the positive-trend area statistic. -/
def posTrendArea (cat : Catalog) (areaF : Pix → ℚ) : Option ℚ :=
  (slopeFinal cat).map fun sl =>
    reduceRegionSum ((sl.gtC 0).multiply (pixelAreaImg areaF))
      "NDVI_slope_per_year" region studyScale

/-- Lines 155–157: the negative-trend area statistic. -/
def negTrendArea (cat : Catalog) (areaF : Pix → ℚ) : Option ℚ :=
  (slopeFinal cat).map fun sl =>
    reduceRegionSum ((sl.ltC 0).multiply (pixelAreaImg areaF))
      "NDVI_slope_per_year" region studyScale

/-! ## Spec-side definitions -/

/-- The sum of squared residuals of the affine model `y = a + b·x` on a list
of observations — the quantity a least-squares linear regression minimizes
(the spec's "least-squares linear regression of NDVI against the year band
t"). -/
def sse (pts : List (ℚ × ℚ)) (a b : ℚ) : ℚ :=
  (pts.map (fun q => (q.2 - (a + b * q.1)) ^ 2)).sum

/-- The script's own SCL keep rule: keep unless SCL is present and classifies
the pixel outside {4, 5, 6, 7}. -/
def sclKeep (img : EEImage) (p : Pix) : Bool :=
  !(decide ("SCL" ∈ img.bands)) ||
    (decide (img.val "SCL" p = 4) || decide (img.val "SCL" p = 5) ||
     decide (img.val "SCL" p = 6) || decide (img.val "SCL" p = 7))

/-- The script's own QA keep rule: QA60 = 0 when QA60 is present, else
MSK_CLDPRB < 50 when that band is present, else keep. -/
def qaKeep (img : EEImage) (p : Pix) : Bool :=
  if "QA60" ∈ img.bands then decide (img.val "QA60" p = 0)
  else if "MSK_CLDPRB" ∈ img.bands then decide (img.val "MSK_CLDPRB" p < 50)
  else true

/-- The cloud-masking decision rule the script itself defines (lines 16–50):
a pixel is kept iff the SCL rule or the QA rule keeps it. -/
def scriptCloudKeep (img : EEImage) (p : Pix) : Bool :=
  sclKeep img p || qaKeep img p

/-! ## Concrete inputs used by the witness theorems -/

/-- A pixel at the region's lower-left corner. -/
def p0 : Pix := (88.35, 23.05)

/-- A placeholder image for total `Option` projections. -/
def dummyImg : EEImage := EEImage.constant 0

/-- An image whose only band is `MSK_CLDPRB`, everywhere 80 and everywhere
valid. -/
def imgCld80 : EEImage :=
  ⟨["MSK_CLDPRB"], fun _ _ => 80, fun _ => true, fun _ => none⟩

/-- An image with only the reflectance bands B8 and B4 (no mask bands),
with B8 = 1 and B4 = 0 everywhere, so NDVI = 1 everywhere. -/
def imgPlain : EEImage :=
  ⟨["B8", "B4"], fun b _ => if b = "B8" then 1 else 0, fun _ => true,
   fun _ => none⟩

/-- An image whose only band is SCL, everywhere the cloud class 9. -/
def imgScl9 : EEImage :=
  ⟨["SCL"], fun _ _ => 9, fun _ => true, fun _ => none⟩

/-- An image with SCL everywhere 9 (cloud) and MSK_CLDPRB everywhere `c`,
everywhere valid. -/
def imgSclCld (c : ℚ) : EEImage :=
  ⟨["SCL", "MSK_CLDPRB"], fun b _ => if b = "SCL" then 9 else c,
   fun _ => true, fun _ => none⟩

/-- A raw catalog image over the region acquired on Jan 1 of year `y`. -/
def wRaw (y : ℚ) : RawImage := ⟨imgPlain, y, region⟩

/-- The band-presence assumption the NDVI step needs: every raw Sentinel-2
catalog image carries the B8 and B4 bands. -/
def HasS2Bands (cat : Catalog) : Prop :=
  ∀ r ∈ cat "COPERNICUS/S2_SR", "B8" ∈ r.img.bands ∧ "B4" ∈ r.img.bands

/-- A catalog holding one such Sentinel-2 image per study year. -/
def wCat : Catalog := fun n =>
  if n = "COPERNICUS/S2_SR" then
    [wRaw 2018, wRaw 2019, wRaw 2020, wRaw 2021, wRaw 2022, wRaw 2023]
  else []

/-- The catalog with no images at all. -/
def emptyCat : Catalog := fun _ => []

def wCol : List EEImage := (collectionForYear wCat 2018).getD []
def wIm : EEImage := (yearlyImage wCat 2018).getD dummyImg
def wL : List EEImage := (yearlyListDef wCat).getD []
def wSl : EEImage := (slopeFinal wCat).getD dummyImg
def wLe : List EEImage := (yearlyListDef emptyCat).getD []
def wSle : EEImage := (slopeFinal emptyCat).getD dummyImg
def wNDVI : EEImage := wCol.headD dummyImg

/-! ## Helper lemmas about `optMap` -/

theorem optMap_cons (f : α → Option β) (x : α) (xs : List α) :
    optMap f (x :: xs) =
      (f x).bind (fun y => (optMap f xs).map (fun ys => y :: ys)) := by
  cases h1 : f x <;> cases h2 : optMap f xs <;> simp [optMap, h1, h2]

theorem optMap_length (f : α → Option β) {xs : List α} {ys : List β}
    (h : optMap f xs = some ys) : ys.length = xs.length := by
  induction xs generalizing ys with
  | nil =>
    simp only [optMap, Option.some_inj] at h
    subst h; rfl
  | cons x xs ih =>
    rw [optMap_cons] at h
    rcases Option.bind_eq_some.mp h with ⟨y, hy, h2⟩
    rcases Option.map_eq_some'.mp h2 with ⟨ys2, hys2, rfl⟩
    simp [ih hys2]

theorem optMap_mem (f : α → Option β) {xs : List α} {ys : List β}
    (h : optMap f xs = some ys) {b : β} :
    b ∈ ys ↔ ∃ a ∈ xs, f a = some b := by
  induction xs generalizing ys with
  | nil =>
    simp only [optMap, Option.some_inj] at h
    subst h; simp
  | cons x xs ih =>
    rw [optMap_cons] at h
    rcases Option.bind_eq_some.mp h with ⟨y, hy, h2⟩
    rcases Option.map_eq_some'.mp h2 with ⟨ys2, hys2, rfl⟩
    simp only [List.mem_cons, ih hys2]
    constructor
    · rintro (rfl | ⟨a, ha, hfa⟩)
      · exact ⟨x, Or.inl rfl, hy⟩
      · exact ⟨a, Or.inr ha, hfa⟩
    · rintro ⟨a, (rfl | ha), hfa⟩
      · left
        rw [hy] at hfa
        exact (Option.some_inj.mp hfa).symm
      · right
        exact ⟨a, ha, hfa⟩

theorem optMap_get (f : α → Option β) {xs : List α} {ys : List β}
    (h : optMap f xs = some ys) (i : ℕ) (h1 : i < xs.length)
    (h2 : i < ys.length) :
    f (xs.get ⟨i, h1⟩) = some (ys.get ⟨i, h2⟩) := by
  induction xs generalizing ys i with
  | nil => simp at h1
  | cons x xs ih =>
    rw [optMap_cons] at h
    rcases Option.bind_eq_some.mp h with ⟨y, hy, hmap⟩
    rcases Option.map_eq_some'.mp hmap with ⟨ys2, hys2, rfl⟩
    cases i with
    | zero => simpa using hy
    | succ n =>
      exact ih hys2 n (by simpa using h1) (by simpa using h2)

theorem optMap_isSome (f : α → Option β) {xs : List α}
    (h : ∀ a ∈ xs, ∃ b, f a = some b) : ∃ ys, optMap f xs = some ys := by
  induction xs with
  | nil => exact ⟨[], rfl⟩
  | cons x xs ih =>
    rcases h x (by simp) with ⟨y, hy⟩
    rcases ih (fun a ha => h a (by simp [ha])) with ⟨ys, hys⟩
    refine ⟨y :: ys, ?_⟩
    rw [optMap_cons, hy, hys]
    rfl

/-! ## The mask `maskS2SR` actually applies -/

theorem indicator_ne_zero (c : Prop) [Decidable c] :
    ((if c then (1 : ℚ) else 0) ≠ 0) ↔ c := by
  split_ifs with h <;> simp [h]

/-- `maskS2SR` never fails, changes no band value, and masks exactly the
pixels rejected by the script's own rule `scriptCloudKeep`. -/
theorem maskS2SR_eq (img : EEImage) :
    maskS2SR img =
      some { img with mask := fun p => img.mask p && scriptCloudKeep img p } := by
  unfold maskS2SR EEImage.select
  by_cases h1 : "SCL" ∈ img.bands <;> by_cases h2 : "QA60" ∈ img.bands <;>
    by_cases h3 : "MSK_CLDPRB" ∈ img.bands <;>
      · simp only [h1, h2, h3, if_true, if_false, ite_true, ite_false,
          eq_self_iff_true, not_true, not_false_iff, Option.map_some',
          Option.some_bind]
        refine congrArg some ?_
        simp only [EEImage.updateMask, EEImage.orI, EEImage.eqC, EEImage.ltC,
          EEImage.pointwise, EEImage.constant, EEImage.v1]
        congr 1
        funext p
        cases hm : img.mask p <;>
          simp [scriptCloudKeep, sclKeep, qaKeep, h1, h2, h3,
            indicator_ne_zero, Bool.decide_or, Bool.or_assoc]

/-! ## Claims C7, C8, C9 -/

/-- C7 (counterexample): the claim says no logic under this repository's
control decides which pixels count as cloud.  But the repository's own
function `maskS2SR` (lines 16–50) makes that decision: on a concrete image
that the platform delivers with every pixel valid (SCL = 9, MSK_CLDPRB = 80,
no QA60 band), `maskS2SR` itself drops the pixel, and on the same image with
MSK_CLDPRB = 40 it keeps it — the script's class set {4,5,6,7} and its
threshold 50 decide. -/
theorem c7_counterexample_scriptDecidesClouds :
    (imgSclCld 80).mask p0 = true ∧
      (maskS2SR (imgSclCld 80)).map (fun i => i.mask p0) = some false ∧
      (maskS2SR (imgSclCld 40)).map (fun i => i.mask p0) = some true := by
  refine ⟨rfl, ?_, ?_⟩ <;> · rw [maskS2SR_eq]; rfl

/-- C7 (amended): the per-pixel operators are platform primitives, but the
cloud-masking decision rule is the script's own: `maskS2SR` never fails,
keeps every band value and property, and masks exactly the pixels rejected
by the repository-defined rule `scriptCloudKeep` (keep iff SCL ∈ {4,5,6,7}
when SCL is present — else keep — OR QA60 = 0 when QA60 is present, else
MSK_CLDPRB < 50 when that band is present, else keep). -/
theorem c7_amended_maskS2SR_implements_scriptRule (img : EEImage) :
    maskS2SR img =
      some { img with mask := fun p => img.mask p && scriptCloudKeep img p } :=
  maskS2SR_eq img

/-- C8: `maskS2SR` never errors on a missing band (every `select` sits under
its band-presence guard, so the function is total), and when none of SCL,
QA60 and MSK_CLDPRB exists the combined mask is the constant-1 image, so the
image comes back with no pixel newly masked — unchanged. -/
theorem c8_maskS2SR_total_and_guarded (img : EEImage) :
    (maskS2SR img).isSome = true ∧
      ("SCL" ∉ img.bands → "QA60" ∉ img.bands → "MSK_CLDPRB" ∉ img.bands →
        maskS2SR img = some img) := by
  constructor
  · rw [maskS2SR_eq]
    rfl
  · intro h1 h2 h3
    rw [maskS2SR_eq]
    refine congrArg some ?_
    have hmk : (fun p => img.mask p && scriptCloudKeep img p) = img.mask := by
      funext p
      simp [scriptCloudKeep, sclKeep, qaKeep, h1, h2, h3]
    rw [hmk]

/-- C8 witness at an image carrying only reflectance bands. -/
theorem c8_witness : maskS2SR imgPlain = some imgPlain :=
  (c8_maskS2SR_total_and_guarded imgPlain).2 (by decide) (by decide)
    (by decide)

/-- C9: the combined mask is `sclMask.or(qaMask)`; when neither QA60 nor
MSK_CLDPRB exists the QA mask is the constant-1 image, so the combined mask
keeps every pixel regardless of the SCL classification and the image comes
back unchanged. -/
theorem c9_noQAband_keepsEverything (img : EEImage)
    (h2 : "QA60" ∉ img.bands) (h3 : "MSK_CLDPRB" ∉ img.bands) :
    maskS2SR img = some img := by
  rw [maskS2SR_eq]
  refine congrArg some ?_
  have hmk : (fun p => img.mask p && scriptCloudKeep img p) = img.mask := by
    funext p
    simp [scriptCloudKeep, sclKeep, qaKeep, h2, h3]
  rw [hmk]

/-- C9 witness at an image whose SCL band classifies every pixel as cloud
(class 9): with no QA60 and no MSK_CLDPRB the image still comes back
unchanged. -/
theorem c9_witness : maskS2SR imgScl9 = some imgScl9 :=
  c9_noQAband_keepsEverything imgScl9 (by decide) (by decide)

/-! ## The collection pipeline (claim C3) -/

theorem collectionForYear_S2 (cat : Catalog) (y : ℚ) :
    collectionForYear cat y =
      (optMap maskS2SR
        ((filterBounds (filterDate (cat "COPERNICUS/S2_SR") y (y + 1))
          region).map RawImage.img)).bind
        (fun masked => optMap addNDVIBands masked) := rfl

/-- Membership characterization of the per-year collection. -/
theorem collectionForYear_mem (cat : Catalog) (y : ℚ)
    (l : List EEImage) (h : collectionForYear cat y = some l) (im : EEImage) :
    im ∈ l ↔ ∃ r ∈ cat "COPERNICUS/S2_SR",
      (y ≤ r.date ∧ r.date < y + 1) ∧ r.footprint.intersectsB region = true ∧
        ∃ m, maskS2SR r.img = some m ∧ addNDVIBands m = some im := by
  rw [collectionForYear_S2] at h
  rcases Option.bind_eq_some.mp h with ⟨masked, hmask, hnd⟩
  rw [optMap_mem addNDVIBands hnd]
  constructor
  · rintro ⟨m, hm, hmi⟩
    rcases (optMap_mem maskS2SR hmask).mp hm with ⟨ri, hri, hrm⟩
    rcases List.mem_map.mp hri with ⟨r, hr, rfl⟩
    rcases List.mem_filter.mp hr with ⟨hr2, hbounds⟩
    rcases List.mem_filter.mp hr2 with ⟨hbase, hdate⟩
    refine ⟨r, hbase, ?_, ?_, m, hrm, hmi⟩
    · simpa using hdate
    · simpa using hbounds
  · rintro ⟨r, hbase, ⟨hd1, hd2⟩, hbound, m, hrm, hmi⟩
    refine ⟨m, ?_, hmi⟩
    refine (optMap_mem maskS2SR hmask).mpr ⟨r.img, ?_, hrm⟩
    refine List.mem_map.mpr ⟨r, ?_, rfl⟩
    refine List.mem_filter.mpr ⟨List.mem_filter.mpr ⟨hbase, ?_⟩, ?_⟩
    · simp [hd1, hd2]
    · simpa using hbound

/-! ## Totality of the pipeline -/

theorem opt_eq_getD {α : Type} {o : Option α} (h : ∃ x, o = some x) (d : α) :
    o = some (o.getD d) := by
  rcases h with ⟨x, rfl⟩
  rfl

theorem addNDVIBands_S2 (img : EEImage) :
    addNDVIBands img =
      (img.normalizedDifference "B8" "B4").map
        (fun nd => img.addBands (nd.rename "NDVI")) := rfl

/-- The fields maskS2SR preserves, and its mask. -/
theorem maskS2SR_fields (img out : EEImage) (h : maskS2SR img = some out) :
    out.bands = img.bands ∧ out.val = img.val ∧ out.props = img.props ∧
      ∀ p, out.mask p = (img.mask p && scriptCloudKeep img p) := by
  rw [maskS2SR_eq] at h
  cases h
  exact ⟨rfl, rfl, rfl, fun p => rfl⟩

theorem addNDVIBands_isSome (img : EEImage) (h8 : "B8" ∈ img.bands)
    (h4 : "B4" ∈ img.bands) : ∃ out, addNDVIBands img = some out := by
  rw [addNDVIBands_S2]
  unfold EEImage.normalizedDifference
  rw [if_pos ⟨h8, h4⟩]
  exact ⟨_, rfl⟩

/-- The fields of the image `addNDVIBands` produces. -/
theorem addNDVIBands_fields (m i : EEImage) (h : addNDVIBands m = some i) :
    i.bands = m.bands ++ ["NDVI"] ∧ (∀ p, i.mask p = m.mask p) ∧
      (∀ p, i.val "NDVI" p =
        if "NDVI" ∈ m.bands then m.val "NDVI" p
        else (m.val "B8" p - m.val "B4" p) / (m.val "B8" p + m.val "B4" p)) := by
  rw [addNDVIBands_S2] at h
  rcases Option.map_eq_some'.mp h with ⟨nd, hnd, rfl⟩
  unfold EEImage.normalizedDifference at hnd
  split at hnd
  · cases hnd
    refine ⟨rfl, fun p => ?_, fun p => ?_⟩
    · simp [EEImage.addBands, EEImage.rename]
    · by_cases hmem : "NDVI" ∈ m.bands <;>
        simp [EEImage.addBands, EEImage.rename, hmem]
  · cases hnd

theorem collectionForYear_isSome (cat : Catalog) (hcat : HasS2Bands cat)
    (y : ℚ) : ∃ l, collectionForYear cat y = some l := by
  rw [collectionForYear_S2]
  have h1 : ∀ a ∈ (filterBounds
      (filterDate (cat "COPERNICUS/S2_SR") y (y + 1)) region).map RawImage.img,
      ∃ b, maskS2SR a = some b := fun a _ => ⟨_, maskS2SR_eq a⟩
  rcases optMap_isSome _ h1 with ⟨masked, hmasked⟩
  have h2 : ∀ m ∈ masked, ∃ b, addNDVIBands m = some b := by
    intro m hm
    rcases (optMap_mem maskS2SR hmasked).mp hm with ⟨a, ha, hma⟩
    rcases List.mem_map.mp ha with ⟨r, hr, rfl⟩
    have hrbase : r ∈ cat "COPERNICUS/S2_SR" :=
      (List.mem_filter.mp (List.mem_filter.mp hr).1).1
    rcases hcat r hrbase with ⟨h8, h4⟩
    rcases maskS2SR_fields _ _ hma with ⟨hb, _, _, _⟩
    exact addNDVIBands_isSome m (hb ▸ h8) (hb ▸ h4)
  rcases optMap_isSome _ h2 with ⟨l, hl⟩
  refine ⟨l, ?_⟩
  rw [hmasked]
  simpa using hl

/-- Every image of a per-year collection carries the NDVI band. -/
theorem collection_hasNDVI (cat : Catalog) (y : ℚ) (l : List EEImage)
    (h : collectionForYear cat y = some l) :
    ∀ i ∈ l, "NDVI" ∈ i.bands := by
  intro i hi
  rcases (collectionForYear_mem cat y l h i).mp hi with
    ⟨r, _, _, _, m, _, hadd⟩
  rcases addNDVIBands_fields m i hadd with ⟨hb, _, _⟩
  rw [hb]
  simp

/-- C3: an image belongs to the collection the script builds for year `y`
iff it arises from a raw catalog image of the sensor's dataset whose date
lies in [Jan 1 of y, Jan 1 of y+1), whose footprint meets the region, by
applying the cloud mask and then adding the NDVI band — i.e. the pipeline
is: load, filter dates, filter bounds, map the mask, map the NDVI band. -/
theorem c3_collectionForYear_pipeline (cat : Catalog) (y : ℚ)
    (l : List EEImage) (h : collectionForYear cat y = some l) (im : EEImage) :
    im ∈ l ↔ ∃ r ∈ cat "COPERNICUS/S2_SR",
      (y ≤ r.date ∧ r.date < y + 1) ∧ r.footprint.intersectsB region = true ∧
        ∃ m, maskS2SR r.img = some m ∧ addNDVIBands m = some im :=
  collectionForYear_mem cat y l h im

theorem hasS2Bands_wCat : HasS2Bands wCat := by
  intro r hr
  have hw : wCat "COPERNICUS/S2_SR" =
      [wRaw 2018, wRaw 2019, wRaw 2020, wRaw 2021, wRaw 2022, wRaw 2023] :=
    rfl
  rw [hw] at hr
  simp only [List.mem_cons, List.not_mem_nil, or_false] at hr
  rcases hr with rfl | rfl | rfl | rfl | rfl | rfl <;>
    exact ⟨by decide, by decide⟩

theorem hasS2Bands_emptyCat : HasS2Bands emptyCat := by
  intro r hr
  simp [emptyCat] at hr

/-- C3 witness: with the concrete six-image catalog, the first image of the
2018 collection is characterized as the claim says. -/
theorem c3_witness :
    wNDVI ∈ wCol ↔ ∃ r ∈ wCat "COPERNICUS/S2_SR",
      ((2018 : ℚ) ≤ r.date ∧ r.date < 2018 + 1) ∧
        r.footprint.intersectsB region = true ∧
        ∃ m, maskS2SR r.img = some m ∧ addNDVIBands m = some wNDVI :=
  c3_collectionForYear_pipeline wCat 2018 wCol
    (opt_eq_getD (collectionForYear_isSome wCat hasS2Bands_wCat 2018) [])
    wNDVI

/-! ## The yearly composite (claims C1, C5, C10) -/

theorem bandVals_select (col sel : List EEImage)
    (h : optMap (fun i => i.select "NDVI") col = some sel) (p : Pix) :
    bandVals sel "NDVI" p = bandVals col "NDVI" p := by
  induction col generalizing sel with
  | nil =>
    simp only [optMap, Option.some_inj] at h
    subst h; rfl
  | cons i col ih =>
    rw [optMap_cons] at h
    rcases Option.bind_eq_some.mp h with ⟨s, hs, h2⟩
    rcases Option.map_eq_some'.mp h2 with ⟨sel2, hsel2, rfl⟩
    unfold EEImage.select at hs
    split at hs
    · cases hs
      have ht := ih sel2 hsel2
      simp only [bandVals, List.filterMap_cons] at ht ⊢
      cases him : i.mask p <;> simp [him, ht]
    · cases hs

theorem yearlyImage_eq (cat : Catalog) (y : ℚ) (im : EEImage)
    (h : yearlyImage cat y = some im) :
    ∃ col sel, collectionForYear cat y = some col ∧
      optMap (fun i => i.select "NDVI") col = some sel ∧
      im = ((if 0 < col.length then (medianComposite sel).clip region
             else ((EEImage.constant (-9999)).clip region).rename
               "NDVI").addBands
              ((EEImage.constant y).rename "t")).setProp "year" y := by
  unfold yearlyImage at h
  rcases Option.bind_eq_some.mp h with ⟨col, hcol, h2⟩
  rcases Option.map_eq_some'.mp h2 with ⟨sel, hsel, him⟩
  exact ⟨col, sel, hcol, hsel, him.symm⟩

/-- Band list, year property and `t` band of a yearly image. -/
theorem yearlyImage_basic (cat : Catalog) (y : ℚ) (im : EEImage)
    (him : yearlyImage cat y = some im) :
    im.bands = ["NDVI", "t"] ∧ im.props "year" = some y ∧
      ∀ p, im.val "t" p = y := by
  rcases yearlyImage_eq cat y im him with ⟨col, sel, hcol, hsel, rfl⟩
  refine ⟨?_, ?_, ?_⟩
  · simp only [EEImage.setProp, EEImage.addBands, EEImage.rename,
      EEImage.clip, medianComposite, EEImage.constant]
    split <;> rfl
  · simp [EEImage.setProp]
  · intro p
    simp only [EEImage.setProp, EEImage.addBands, EEImage.rename,
      EEImage.clip, medianComposite, EEImage.constant]
    split <;> simp

/-- Mask and NDVI value of a yearly image, in both the populated-year and the
empty-year case. -/
theorem yearlyImage_fields (cat : Catalog) (y : ℚ) (im : EEImage)
    (col : List EEImage) (hcol : collectionForYear cat y = some col)
    (him : yearlyImage cat y = some im) :
    (0 < col.length →
      ∀ p, im.mask p = (decide (bandVals col "NDVI" p ≠ []) &&
            region.containsB p) ∧
        im.val "NDVI" p = (med (bandVals col "NDVI" p)).getD 0) ∧
    (col.length = 0 →
      ∀ p, im.mask p = region.containsB p ∧ im.val "NDVI" p = -9999) := by
  rcases yearlyImage_eq cat y im him with ⟨col2, sel, hcol2, hsel, rfl⟩
  rw [hcol] at hcol2
  injection hcol2 with hcol2
  subst hcol2
  constructor
  · intro hc p
    rw [if_pos hc]
    constructor
    · simp [EEImage.setProp, EEImage.addBands, EEImage.rename, EEImage.clip,
        medianComposite, EEImage.constant, bandVals_select col sel hsel p,
        Bool.and_assoc]
    · simp [EEImage.setProp, EEImage.addBands, EEImage.rename, EEImage.clip,
        medianComposite, EEImage.constant, bandVals_select col sel hsel p]
  · intro hc p
    rw [if_neg (by omega)]
    constructor
    · simp [EEImage.setProp, EEImage.addBands, EEImage.rename, EEImage.clip,
        EEImage.constant]
    · simp [EEImage.setProp, EEImage.addBands, EEImage.rename, EEImage.clip,
        EEImage.constant]

theorem yearlyImage_isSome (cat : Catalog) (hcat : HasS2Bands cat) (y : ℚ) :
    ∃ im, yearlyImage cat y = some im := by
  rcases collectionForYear_isSome cat hcat y with ⟨col, hcol⟩
  have hsel : ∀ i ∈ col, ∃ s, i.select "NDVI" = some s := by
    intro i hi
    have hmem := collection_hasNDVI cat y col hcol i hi
    unfold EEImage.select
    rw [if_pos hmem]
    exact ⟨_, rfl⟩
  rcases optMap_isSome _ hsel with ⟨sel, hselo⟩
  refine Option.isSome_iff_exists.mp ?_
  unfold yearlyImage
  rw [hcol, Option.some_bind, hselo]
  rfl

theorem yearlyListDef_isSome (cat : Catalog) (hcat : HasS2Bands cat) :
    ∃ L, yearlyListDef cat = some L :=
  optMap_isSome _ (fun y _ => yearlyImage_isSome cat hcat y)

theorem yearlyListDef_bands (cat : Catalog) (L : List EEImage)
    (hL : yearlyListDef cat = some L) :
    ∀ im ∈ L, im.bands = ["NDVI", "t"] := by
  intro im him
  rcases (optMap_mem _ hL).mp him with ⟨y, _, hyim⟩
  exact (yearlyImage_basic cat y im hyim).1

theorem slopeFinal_isSome (cat : Catalog) (hcat : HasS2Bands cat) :
    ∃ sl, slopeFinal cat = some sl := by
  rcases yearlyListDef_isSome cat hcat with ⟨L, hL⟩
  have hsel : ∀ i ∈ L, ∃ s, i.select "NDVI" = some s := by
    intro i hi
    unfold EEImage.select
    rw [if_pos (by rw [yearlyListDef_bands cat L hL i hi]; simp)]
    exact ⟨_, rfl⟩
  rcases optMap_isSome _ hsel with ⟨sel, hselo⟩
  refine Option.isSome_iff_exists.mp ?_
  unfold slopeFinal
  rw [hL, Option.some_bind]
  have hsc : (linearFitImage L).select "scale" =
      some ⟨["scale"], fun _ p => (linearFitImage L).val "scale" p,
            (linearFitImage L).mask, (linearFitImage L).props⟩ := by
    unfold EEImage.select
    rw [if_pos (by simp [linearFitImage])]
  rw [hsc, Option.some_bind, hselo]
  rfl

theorem get_map_general {α β : Type} (f : α → β) (l : List α) (i : ℕ)
    (h1 : i < (l.map f).length) (h2 : i < l.length) :
    (l.map f).get ⟨i, h1⟩ = f (l.get ⟨i, h2⟩) := by
  induction l generalizing i with
  | nil => simp at h2
  | cons x xs ih =>
    cases i with
    | zero => rfl
    | succ n => exact ih n (by simpa using h1) (by simpa using h2)

theorem get_range_general (n i : ℕ) (h1 : i < (List.range n).length) :
    (List.range n).get ⟨i, h1⟩ = i := by
  simp

theorem floorYears_eq : (⌊yearEnd - yearStart⌋).toNat + 1 = 6 := by
  have h5 : ⌊yearEnd - yearStart⌋ = 5 := by norm_num [yearStart, yearEnd]
  rw [h5]
  rfl

theorem years_get (i : ℕ) (h : i < years.length) :
    years.get ⟨i, h⟩ = yearStart + (i : ℚ) := by
  have h2 : i < (List.range ((⌊yearEnd - yearStart⌋).toNat + 1)).length := by
    simpa [years] using h
  show ((List.range ((⌊yearEnd - yearStart⌋).toNat + 1)).map
      (fun j : ℕ => yearStart + (j : ℚ))).get ⟨i, h⟩ = yearStart + (i : ℚ)
  rw [get_map_general _ _ i h h2, get_range_general _ i h2]

theorem years_eq : years = [2018, 2019, 2020, 2021, 2022, 2023] := by
  have h6 : (⌊yearEnd - yearStart⌋).toNat + 1 = 6 := floorYears_eq
  unfold years
  rw [h6]
  show List.map _ [0, 1, 2, 3, 4, 5] = _
  simp only [List.map_cons, List.map_nil]
  norm_num [yearStart]

theorem wCat_S2 : wCat "COPERNICUS/S2_SR" =
    [wRaw 2018, wRaw 2019, wRaw 2020, wRaw 2021, wRaw 2022, wRaw 2023] := rfl

theorem wCol_eq : collectionForYear wCat 2018 = some wCol :=
  opt_eq_getD (collectionForYear_isSome wCat hasS2Bands_wCat 2018) []

theorem wCol_ne_nil : wCol ≠ [] := by
  rcases addNDVIBands_isSome
      ({ (wRaw 2018).img with
          mask := fun p =>
            (wRaw 2018).img.mask p && scriptCloudKeep (wRaw 2018).img p })
      (by decide) (by decide) with ⟨out, hout⟩
  have hmem : out ∈ wCol := by
    refine (collectionForYear_mem wCat 2018 wCol wCol_eq out).mpr
      ⟨wRaw 2018, ?_, ⟨by norm_num [wRaw], by norm_num [wRaw]⟩, ?_,
        _, maskS2SR_eq _, hout⟩
    · rw [wCat_S2]
      exact List.mem_cons_self _ _
    · norm_num [wRaw, Rect.intersectsB, region]
  intro hnil
  rw [hnil] at hmem
  simp at hmem

/-- C1: for every year whose filtered, masked collection is non-empty, the
yearly image's NDVI band is the per-pixel median of the collection's NDVI
values, clipped to the region: the pixel is valid exactly where some
collection image is valid there and the pixel lies in the region, and the
value is the median of the valid NDVI values at that pixel. -/
theorem c1_yearly_is_median_clipped (cat : Catalog) (y : ℚ) (hy : y ∈ years)
    (col : List EEImage) (hcol : collectionForYear cat y = some col)
    (hne : col ≠ []) (im : EEImage) (him : yearlyImage cat y = some im) :
    ∀ p, im.mask p = (decide (bandVals col "NDVI" p ≠ []) &&
        region.containsB p) ∧
      im.val "NDVI" p = (med (bandVals col "NDVI" p)).getD 0 := by
  have hlen : 0 < col.length := List.length_pos.mpr hne
  exact fun p => (yearlyImage_fields cat y im col hcol him).1 hlen p

theorem wIm_eq : yearlyImage wCat 2018 = some wIm :=
  opt_eq_getD (yearlyImage_isSome wCat hasS2Bands_wCat 2018) dummyImg

/-- C1 witness at the concrete catalog, year 2018 and the region corner. -/
theorem c1_witness :
    wIm.mask p0 = (decide (bandVals wCol "NDVI" p0 ≠ []) &&
        region.containsB p0) ∧
      wIm.val "NDVI" p0 = (med (bandVals wCol "NDVI" p0)).getD 0 :=
  c1_yearly_is_median_clipped wCat 2018
    (by rw [years_eq]; exact List.mem_cons_self _ _)
    wCol wCol_eq wCol_ne_nil wIm wIm_eq p0

/-! ## The reported per-year means and the chart (claim C5) -/

/-- C5: the script reports one feature per year in the study range, whose
`year` is that year (`yearStart + i` for the i-th) and whose `meanNDVI` is
the regional mean of that year's composite NDVI over the region at the study
scale; and the chart plots exactly these pairs, in order. -/
theorem c5_means_and_chart (cat : Catalog) (L : List EEImage)
    (hL : yearlyListDef cat = some L) :
    ∃ F, meanPerYearFC cat = some F ∧
      F.length = years.length ∧
      ((years.length : ℚ) = yearEnd - yearStart + 1) ∧
      (∀ i (hi : i < F.length) (hl : i < L.length) (hy : i < years.length),
        (F.get ⟨i, hi⟩).year = years.get ⟨i, hy⟩ ∧
        years.get ⟨i, hy⟩ = yearStart + (i : ℚ) ∧
        (F.get ⟨i, hi⟩).meanNDVI =
          reduceRegionMean (L.get ⟨i, hl⟩) "NDVI" region studyScale) ∧
      chartData cat = some (F.map (fun f => (f.year, f.meanNDVI))) := by
  refine ⟨L.map (fun img =>
      ⟨(img.props "year").getD 0,
       reduceRegionMean img "NDVI" region studyScale⟩), ?_, ?_, ?_, ?_, ?_⟩
  · unfold meanPerYearFC
    rw [hL]
    rfl
  · simp only [List.length_map]
    exact optMap_length _ hL
  · have hlen : years.length = 6 := by
      rw [years_eq]
      rfl
    rw [hlen]
    norm_num [yearStart, yearEnd]
  · intro i hi hl hy
    have hgety : years.get ⟨i, hy⟩ = yearStart + (i : ℚ) := years_get i hy
    have him := optMap_get (yearlyImage cat) hL i hy hl
    rcases yearlyImage_basic cat _ _ him with ⟨_, hprop, _⟩
    refine ⟨?_, hgety, ?_⟩
    · simp only [List.get_eq_getElem, List.getElem_map]
      simp only [List.get_eq_getElem] at hprop
      simp [hprop]
    · simp only [List.get_eq_getElem, List.getElem_map]
  · unfold chartData meanPerYearFC
    rw [hL]
    rfl

theorem wLe_eq : yearlyListDef emptyCat = some wLe :=
  opt_eq_getD (yearlyListDef_isSome emptyCat hasS2Bands_emptyCat) []

/-- C5 witness at the empty catalog. -/
theorem c5_witness :
    ∃ F, meanPerYearFC emptyCat = some F ∧
      F.length = years.length ∧
      ((years.length : ℚ) = yearEnd - yearStart + 1) ∧
      (∀ i (hi : i < F.length) (hl : i < wLe.length) (hy : i < years.length),
        (F.get ⟨i, hi⟩).year = years.get ⟨i, hy⟩ ∧
        years.get ⟨i, hy⟩ = yearStart + (i : ℚ) ∧
        (F.get ⟨i, hi⟩).meanNDVI =
          reduceRegionMean (wLe.get ⟨i, hl⟩) "NDVI" region studyScale) ∧
      chartData emptyCat = some (F.map (fun f => (f.year, f.meanNDVI))) :=
  c5_means_and_chart emptyCat wLe wLe_eq

/-! ## The slope image and the area statistics (claims C2, C6) -/

/-- Structure of the final slope image. -/
theorem slopeFinal_eq (cat : Catalog) (sl : EEImage)
    (h : slopeFinal cat = some sl) :
    ∃ L sel, yearlyListDef cat = some L ∧
      optMap (fun i => i.select "NDVI") L = some sel ∧
      sl.bands = ["NDVI_slope_per_year"] ∧
      (∀ p, sl.val "NDVI_slope_per_year" p =
        (linearFitScale (pixelPairs L p)).getD 0) ∧
      (∀ p, sl.mask p =
        ((linearFitScale (pixelPairs L p)).isSome &&
         (decide (bandVals sel "NDVI" p ≠ []) &&
          decide ((minList (bandVals sel "NDVI" p)).getD 0 ≠ -9999)))) := by
  unfold slopeFinal at h
  rcases Option.bind_eq_some.mp h with ⟨L, hL, h2⟩
  rcases Option.bind_eq_some.mp h2 with ⟨sc, hsc, h3⟩
  rcases Option.map_eq_some'.mp h3 with ⟨sel, hsel, rfl⟩
  unfold EEImage.select at hsc
  rw [if_pos (by simp [linearFitImage])] at hsc
  cases hsc
  refine ⟨L, sel, hL, hsel, rfl, fun p => ?_, fun p => ?_⟩
  · simp [EEImage.updateMask, EEImage.rename, linearFitImage]
  · simp only [EEImage.updateMask, EEImage.rename, EEImage.neqC,
      minComposite, EEImage.pointwise, EEImage.v1, linearFitImage]
    by_cases hx : (minList (bandVals sel "NDVI" p)).getD 0 = -9999 <;>
      simp [hx]

/-- Sum of mask-guarded indicator-weighted samples as a sum over the pixels
passing the predicate. -/
theorem sum_indicator_general (pts : List Pix) (msk : Pix → Bool)
    (q : ℚ → Prop) [DecidablePred q] (v : Pix → ℚ) (aF : Pix → ℚ) :
    (pts.filterMap (fun p => if msk p then
        some ((if q (v p) then (1 : ℚ) else 0) * aF p) else none)).sum
      = ((pts.filter (fun p => msk p && decide (q (v p)))).map aF).sum := by
  induction pts with
  | nil => rfl
  | cons p pts ih =>
    cases hm : msk p <;> by_cases hq : q (v p) <;>
      simp only [List.filterMap_cons, List.filter_cons, hm, hq, if_true,
        ite_true, ite_false, decide_True, decide_False, Bool.false_and,
        Bool.true_and, Bool.and_false, Bool.and_true, Bool.false_eq_true,
        if_false, List.sum_cons, List.map_cons, one_mul, zero_mul, zero_add,
        not_true, not_false_iff] <;>
      rw [ih]

/-- C6: the reported positive-trend area equals the sum, over the region's
sample grid at the study scale, of the per-pixel area of the valid pixels
whose slope is strictly positive; the negative-trend area likewise with
strictly negative slope. -/
theorem c6_trend_areas (cat : Catalog) (areaF : Pix → ℚ) (sl : EEImage)
    (h : slopeFinal cat = some sl) :
    posTrendArea cat areaF = some (((sampleGrid region studyScale).filter
        (fun p => sl.mask p &&
          decide (0 < sl.val "NDVI_slope_per_year" p))).map areaF).sum ∧
    negTrendArea cat areaF = some (((sampleGrid region studyScale).filter
        (fun p => sl.mask p &&
          decide (sl.val "NDVI_slope_per_year" p < 0))).map areaF).sum := by
  constructor
  · unfold posTrendArea
    rw [h, Option.map_some']
    refine congrArg some ?_
    unfold reduceRegionSum EEImage.multiply EEImage.gtC EEImage.pointwise
      pixelAreaImg
    simp only [Bool.and_true]
    exact sum_indicator_general (sampleGrid region studyScale) sl.mask
      (fun v => 0 < v) (sl.val "NDVI_slope_per_year") areaF
  · unfold negTrendArea
    rw [h, Option.map_some']
    refine congrArg some ?_
    unfold reduceRegionSum EEImage.multiply EEImage.ltC EEImage.pointwise
      pixelAreaImg
    simp only [Bool.and_true]
    exact sum_indicator_general (sampleGrid region studyScale) sl.mask
      (fun v => v < 0) (sl.val "NDVI_slope_per_year") areaF

theorem wSle_eq : slopeFinal emptyCat = some wSle :=
  opt_eq_getD (slopeFinal_isSome emptyCat hasS2Bands_emptyCat) dummyImg

/-- C6 witness at the empty catalog and unit pixel areas. -/
theorem c6_witness :
    posTrendArea emptyCat (fun _ => 1) =
      some (((sampleGrid region studyScale).filter
        (fun p => wSle.mask p &&
          decide (0 < wSle.val "NDVI_slope_per_year" p))).map
          (fun _ => (1 : ℚ))).sum ∧
    negTrendArea emptyCat (fun _ => 1) =
      some (((sampleGrid region studyScale).filter
        (fun p => wSle.mask p &&
          decide (wSle.val "NDVI_slope_per_year" p < 0))).map
          (fun _ => (1 : ℚ))).sum :=
  c6_trend_areas emptyCat (fun _ => 1) wSle wSle_eq

/-! ## The fixed region (claim C4) -/

theorem studyScale_eq : studyScale = 10 := rfl

/-- The region's sample grid at the study scale, computed. -/
theorem sampleGrid_region : sampleGrid region studyScale = [(88.35, 23.05)] := by
  have hx : (⌊(region.xmax - region.xmin) / studyScale⌋).toNat + 1 = 1 := by
    norm_num [region, studyScale_eq]
  have hy : (⌊(region.ymax - region.ymin) / studyScale⌋).toNat + 1 = 1 := by
    norm_num [region, studyScale_eq]
  simp only [sampleGrid]
  rw [hx, hy]
  simp only [List.range_succ, List.range_zero, List.nil_append,
    List.flatMap_cons, List.flatMap_nil, List.map_cons, List.map_nil,
    List.append_nil, Nat.cast_zero]
  norm_num [region]

theorem region_contains_corner : region.containsB (88.35, 23.05) = true := by
  norm_num [Rect.containsB, region]

/-- C4: the geographic region is the fixed constant rectangle
[88.35, 23.05, 88.55, 23.35] (a plain `def`, never reassigned), and every
geometry-dependent stage uses it: (a) the yearly bounds filter — restricting
the catalog to images whose footprint meets this region changes nothing;
(b) the composite clip — every yearly image is masked outside this region;
(c) the per-year mean reduction and (d) the area statistics reduce over this
region's sample grid at the study scale, whose points all lie inside the
region, so they depend only on pixels of the region. -/
theorem c4_fixed_region :
    region = ⟨88.35, 23.05, 88.55, 23.35⟩ ∧
    (∀ cat : Catalog, ∀ y : ℚ,
      collectionForYear
        (fun nm => (cat nm).filter (fun r => r.footprint.intersectsB region))
        y = collectionForYear cat y) ∧
    (∀ cat y im, yearlyImage cat y = some im →
      ∀ p, region.containsB p = false → im.mask p = false) ∧
    (∀ p ∈ sampleGrid region studyScale, region.containsB p = true) ∧
    (∀ img img2 : EEImage, ∀ b : String,
      (∀ p, region.containsB p = true →
        img.mask p = img2.mask p ∧ img.val b p = img2.val b p) →
      reduceRegionMean img b region studyScale =
        reduceRegionMean img2 b region studyScale ∧
      reduceRegionSum img b region studyScale =
        reduceRegionSum img2 b region studyScale) := by
  refine ⟨rfl, ?_, ?_, ?_, ?_⟩
  · intro cat y
    rw [collectionForYear_S2, collectionForYear_S2]
    have hfilters :
        filterBounds (filterDate
          ((cat "COPERNICUS/S2_SR").filter
            (fun r => r.footprint.intersectsB region)) y (y + 1)) region =
        filterBounds (filterDate (cat "COPERNICUS/S2_SR") y (y + 1))
          region := by
      unfold filterBounds filterDate
      rw [List.filter_filter, List.filter_filter, List.filter_filter]
      apply List.filter_congr
      intro r _
      cases hb : r.footprint.intersectsB region <;>
        cases hd : (decide (y ≤ r.date) && decide (r.date < y + 1)) <;>
          simp [hb, hd]
    rw [hfilters]
  · intro cat y im him p hout
    rcases yearlyImage_eq cat y im him with ⟨col, sel, hcol, hsel, rfl⟩
    simp only [EEImage.setProp, EEImage.addBands, EEImage.rename,
      EEImage.clip, medianComposite, EEImage.constant]
    split <;> simp [hout]
  · intro p hp
    rw [sampleGrid_region] at hp
    simp only [List.mem_cons, List.not_mem_nil, or_false] at hp
    rw [hp]
    exact region_contains_corner
  · intro img img2 b hagree
    have hp := hagree (88.35, 23.05) region_contains_corner
    constructor
    · unfold reduceRegionMean
      rw [sampleGrid_region]
      simp only [List.filterMap_cons, List.filterMap_nil, hp.1, hp.2]
    · unfold reduceRegionSum
      rw [sampleGrid_region]
      simp only [List.filterMap_cons, List.filterMap_nil, hp.1, hp.2]

/-- C4 witness: the single sample point of the region grid lies inside the
region. -/
theorem c4_witness : region.containsB (88.35, 23.05) = true :=
  c4_fixed_region.2.2.2.1 (88.35, 23.05)
    (by rw [sampleGrid_region]; exact List.mem_cons_self _ _)

/-! ## Least squares (claim C2) -/

theorem sse_expand (pts : List (ℚ × ℚ)) (a b : ℚ) :
    sse pts a b = sumSndSq pts - 2 * a * sumSnd pts - 2 * b * sumProd pts
      + 2 * a * b * sumFst pts + a ^ 2 * (pts.length : ℚ)
      + b ^ 2 * sumFstSq pts := by
  induction pts with
  | nil => simp [sse, sumSndSq, sumSnd, sumProd, sumFst, sumFstSq]
  | cons q pts ih =>
    unfold sse sumSndSq sumSnd sumProd sumFst sumFstSq at ih ⊢
    simp only [List.map_cons, List.sum_cons, List.length_cons]
    rw [ih]
    push_cast
    ring

theorem sq_sum_aux (pts : List (ℚ × ℚ)) (x : ℚ) :
    (pts.map (fun q => (x - q.1) ^ 2)).sum =
      (pts.length : ℚ) * x ^ 2 - 2 * x * sumFst pts + sumFstSq pts := by
  induction pts with
  | nil => simp [sumFst, sumFstSq]
  | cons q pts ih =>
    unfold sumFst sumFstSq at ih ⊢
    simp only [List.map_cons, List.sum_cons, List.length_cons]
    rw [ih]
    push_cast
    ring

/-- The normal-equation determinant is nonnegative (Cauchy–Schwarz). -/
theorem lfDet_nonneg (pts : List (ℚ × ℚ)) : 0 ≤ lfDet pts := by
  induction pts with
  | nil => simp [lfDet, sumFst, sumFstSq]
  | cons q pts ih =>
    have hsq : 0 ≤ (pts.map (fun r => (q.1 - r.1) ^ 2)).sum :=
      List.sum_nonneg (by
        intro x hx
        rcases List.mem_map.mp hx with ⟨r, _, rfl⟩
        positivity)
    have haux := sq_sum_aux pts q.1
    unfold lfDet sumFst sumFstSq at ih haux ⊢
    simp only [List.map_cons, List.sum_cons, List.length_cons]
    push_cast
    nlinarith [ih, hsq, haux]

/-- The `scale` output of the linear-fit reducer, when defined, is a
least-squares slope: some intercept makes its squared-residual sum minimal
over all lines. -/
theorem linearFitScale_isLSQ (pts : List (ℚ × ℚ)) (b : ℚ)
    (hb : linearFitScale pts = some b) :
    ∃ a, ∀ a2 b2, sse pts a b ≤ sse pts a2 b2 := by
  unfold linearFitScale at hb
  split at hb
  · cases hb
  · rename_i hd
    injection hb with hb
    subst hb
    have hne : pts ≠ [] := by
      rintro rfl
      simp [lfDet, sumFst, sumFstSq] at hd
    have hn : 0 < (pts.length : ℚ) := by
      exact_mod_cast List.length_pos.mpr hne
    have hdet : 0 < lfDet pts := lt_of_le_of_ne (lfDet_nonneg pts) (Ne.symm hd)
    set n := (pts.length : ℚ) with hnn
    set sx := sumFst pts
    set sy := sumSnd pts
    set sxx := sumFstSq pts
    set sxy := sumProd pts
    set syy := sumSndSq pts
    have hdeq : lfDet pts = n * sxx - sx ^ 2 := rfl
    set bh := (n * sxy - sx * sy) / lfDet pts with hbh
    refine ⟨(sy - bh * sx) / n, ?_⟩
    intro a2 b2
    rw [sse_expand, sse_expand]
    set ah := (sy - bh * sx) / n with hah
    have h1 : n * ah + bh * sx - sy = 0 := by
      rw [hah]
      field_simp
    have h2 : (n * sxy - sx * sy) - (n * sxx - sx ^ 2) * bh = 0 := by
      rw [hbh, ← hdeq]
      field_simp [hd]
    have key : n * ((syy - 2*a2*sy - 2*b2*sxy + 2*a2*b2*sx + a2^2*n
          + b2^2*sxx)
        - (syy - 2*ah*sy - 2*bh*sxy + 2*ah*bh*sx + ah^2*n + bh^2*sxx))
        = (n*a2 + b2*sx - sy)^2 + (n * sxx - sx ^ 2) * (b2 - bh)^2 := by
      linear_combination (-(n * ah + bh * sx - sy)) * h1
        + (2 * (bh - b2)) * h2
    have hkey_nonneg : 0 ≤ (n*a2 + b2*sx - sy)^2
        + (n * sxx - sx ^ 2) * (b2 - bh)^2 := by
      have h1 : 0 ≤ (n * sxx - sx ^ 2) := by rw [← hdeq]; exact lfDet_nonneg pts
      positivity
    nlinarith [key, hkey_nonneg, hn]

/-- C2: the trend map fits, at every pixel, a least-squares linear
regression of NDVI against the year band `t` across the yearly composite
images, and the reported band `NDVI_slope_per_year` is the slope (`scale`)
of that fit: at every valid pixel of the reported slope image its value is
the linear-fit scale of the pixel's `(t, NDVI)` observations, and that
value, with some intercept, minimizes the sum of squared residuals over all
lines. -/
theorem c2_slope_is_leastSquares (cat : Catalog) (sl : EEImage)
    (h : slopeFinal cat = some sl) (L : List EEImage)
    (hL : yearlyListDef cat = some L) (p : Pix) (hm : sl.mask p = true) :
    sl.bands = ["NDVI_slope_per_year"] ∧
    ∃ b, linearFitScale (pixelPairs L p) = some b ∧
      sl.val "NDVI_slope_per_year" p = b ∧
      ∃ a, ∀ a2 b2, sse (pixelPairs L p) a b ≤ sse (pixelPairs L p) a2 b2 := by
  rcases slopeFinal_eq cat sl h with ⟨L2, sel, hL2, hsel, hbands, hval, hmask⟩
  rw [hL] at hL2
  injection hL2 with hL2
  subst hL2
  refine ⟨hbands, ?_⟩
  have hmm := hmask p
  rw [hm] at hmm
  have hsome : (linearFitScale (pixelPairs L p)).isSome = true := by
    cases hfit : (linearFitScale (pixelPairs L p)).isSome
    · rw [hfit] at hmm
      simp at hmm
    · rfl
  rcases Option.isSome_iff_exists.mp hsome with ⟨b, hb⟩
  refine ⟨b, hb, ?_, linearFitScale_isLSQ _ b hb⟩
  rw [hval p, hb]
  rfl

/-! ## C2 witness: the pipeline evaluated at the concrete catalog -/

theorem wFiltered2018 :
    filterBounds (filterDate (wCat "COPERNICUS/S2_SR") 2018 (2018 + 1))
      region = [wRaw 2018] := by
  rw [wCat_S2]
  unfold filterDate filterBounds
  norm_num [wRaw, Rect.intersectsB, region]

theorem wFiltered2019 :
    filterBounds (filterDate (wCat "COPERNICUS/S2_SR") 2019 (2019 + 1))
      region = [wRaw 2019] := by
  rw [wCat_S2]
  unfold filterDate filterBounds
  norm_num [wRaw, Rect.intersectsB, region]

theorem wFiltered2020 :
    filterBounds (filterDate (wCat "COPERNICUS/S2_SR") 2020 (2020 + 1))
      region = [wRaw 2020] := by
  rw [wCat_S2]
  unfold filterDate filterBounds
  norm_num [wRaw, Rect.intersectsB, region]

theorem wFiltered2021 :
    filterBounds (filterDate (wCat "COPERNICUS/S2_SR") 2021 (2021 + 1))
      region = [wRaw 2021] := by
  rw [wCat_S2]
  unfold filterDate filterBounds
  norm_num [wRaw, Rect.intersectsB, region]

theorem wFiltered2022 :
    filterBounds (filterDate (wCat "COPERNICUS/S2_SR") 2022 (2022 + 1))
      region = [wRaw 2022] := by
  rw [wCat_S2]
  unfold filterDate filterBounds
  norm_num [wRaw, Rect.intersectsB, region]

theorem wFiltered2023 :
    filterBounds (filterDate (wCat "COPERNICUS/S2_SR") 2023 (2023 + 1))
      region = [wRaw 2023] := by
  rw [wCat_S2]
  unfold filterDate filterBounds
  norm_num [wRaw, Rect.intersectsB, region]

/-- The per-year collection over the concrete catalog: one image, valid at
the corner pixel, with NDVI value 1 there. -/
theorem wColY (y : ℚ)
    (hf : filterBounds (filterDate (wCat "COPERNICUS/S2_SR") y (y + 1))
      region = [wRaw y]) :
    ∃ i, collectionForYear wCat y = some [i] ∧ i.mask p0 = true ∧
      i.val "NDVI" p0 = 1 := by
  rcases addNDVIBands_isSome
      ({ imgPlain with
          mask := fun p => imgPlain.mask p && scriptCloudKeep imgPlain p })
      (by decide) (by decide) with ⟨i, hi⟩
  refine ⟨i, ?_, ?_, ?_⟩
  · rw [collectionForYear_S2, hf]
    have h1 : ([wRaw y].map RawImage.img) = [imgPlain] := rfl
    rw [h1]
    have h2 : optMap maskS2SR [imgPlain] =
        some [{ imgPlain with
          mask := fun p => imgPlain.mask p && scriptCloudKeep imgPlain p }] := by
      rw [optMap_cons, maskS2SR_eq imgPlain]
      rfl
    rw [h2, Option.some_bind, optMap_cons, hi]
    rfl
  · rw [(addNDVIBands_fields _ i hi).2.1 p0]
    decide
  · rw [(addNDVIBands_fields _ i hi).2.2 p0, if_neg (by decide)]
    have hb : (("B4" : String) = "B8") = False := eq_false (by decide)
    norm_num [imgPlain, hb]

/-- The yearly image over the concrete catalog: valid at the corner pixel,
NDVI value 1, `t` value the year. -/
theorem wYearly (y : ℚ)
    (hf : filterBounds (filterDate (wCat "COPERNICUS/S2_SR") y (y + 1))
      region = [wRaw y]) :
    ∃ im, yearlyImage wCat y = some im ∧ im.mask p0 = true ∧
      im.val "NDVI" p0 = 1 ∧ im.val "t" p0 = y := by
  rcases wColY y hf with ⟨i, hcol, him0, hiv⟩
  rcases yearlyImage_isSome wCat hasS2Bands_wCat y with ⟨im, him⟩
  rcases yearlyImage_basic wCat y im him with ⟨_, _, hvt⟩
  have hfld := (yearlyImage_fields wCat y im [i] hcol him).1 (by simp)
  have hbv : bandVals [i] "NDVI" p0 = [1] := by
    simp [bandVals, him0, hiv]
  refine ⟨im, him, ?_, ?_, hvt p0⟩
  · rw [(hfld p0).1, hbv]
    show (decide (([1] : List ℚ) ≠ []) &&
      region.containsB (88.35, 23.05)) = true
    rw [region_contains_corner]
    rfl
  · rw [(hfld p0).2, hbv]
    rfl

theorem wL_eq : yearlyListDef wCat = some wL :=
  opt_eq_getD (yearlyListDef_isSome wCat hasS2Bands_wCat) []

theorem wSl_eq : slopeFinal wCat = some wSl :=
  opt_eq_getD (slopeFinal_isSome wCat hasS2Bands_wCat) dummyImg

/-- The final slope image over the concrete catalog is valid at the corner
pixel. -/
theorem wSl_mask_p0 : wSl.mask p0 = true := by
  rcases wYearly 2018 wFiltered2018 with ⟨i2018, h2018, m2018, v2018, t2018⟩
  rcases wYearly 2019 wFiltered2019 with ⟨i2019, h2019, m2019, v2019, t2019⟩
  rcases wYearly 2020 wFiltered2020 with ⟨i2020, h2020, m2020, v2020, t2020⟩
  rcases wYearly 2021 wFiltered2021 with ⟨i2021, h2021, m2021, v2021, t2021⟩
  rcases wYearly 2022 wFiltered2022 with ⟨i2022, h2022, m2022, v2022, t2022⟩
  rcases wYearly 2023 wFiltered2023 with ⟨i2023, h2023, m2023, v2023, t2023⟩
  have hLlist : yearlyListDef wCat = some [i2018, i2019, i2020, i2021, i2022, i2023] := by
    unfold yearlyListDef
    rw [years_eq]
    simp only [optMap_cons, h2018, h2019, h2020, h2021, h2022, h2023, Option.some_bind, Option.map_some']
    rfl
  have hwList : wL = [i2018, i2019, i2020, i2021, i2022, i2023] := by
    have hx := wL_eq
    rw [hLlist] at hx
    exact (Option.some_inj.mp hx).symm
  rcases slopeFinal_eq wCat wSl wSl_eq with ⟨L2, sel, hL2, hsel, _, _, hmask⟩
  have hL2w : L2 = wL := by
    rw [wL_eq] at hL2
    exact (Option.some_inj.mp hL2).symm
  subst hL2w
  have hpairs : pixelPairs wL p0 =
      [(2018, 1), (2019, 1), (2020, 1), (2021, 1), (2022, 1), (2023, 1)] := by
    rw [hwList]
    simp [pixelPairs, m2018, v2018, t2018, m2019, v2019, t2019, m2020, v2020, t2020, m2021, v2021, t2021, m2022, v2022, t2022, m2023, v2023, t2023]
  have hbv : bandVals wL "NDVI" p0 = [1, 1, 1, 1, 1, 1] := by
    rw [hwList]
    simp [bandVals, m2018, v2018, t2018, m2019, v2019, t2019, m2020, v2020, t2020, m2021, v2021, t2021, m2022, v2022, t2022, m2023, v2023, t2023]
  have hfit : (linearFitScale
      [((2018 : ℚ), (1 : ℚ)), (2019, 1), (2020, 1), (2021, 1), (2022, 1),
        (2023, 1)]).isSome = true := by
    unfold linearFitScale
    rw [if_neg (by norm_num [lfDet, sumFst, sumFstSq])]
    rfl
  rw [hmask p0, hpairs, bandVals_select wL sel hsel p0, hbv, hfit]
  norm_num [minList, min_self]
  simp

/-- C2 witness: at the concrete six-image catalog and the region corner, the
reported slope value is the least-squares slope of the pixel's (t, NDVI)
observations. -/
theorem c2_witness :
    wSl.bands = ["NDVI_slope_per_year"] ∧
    ∃ b, linearFitScale (pixelPairs wL p0) = some b ∧
      wSl.val "NDVI_slope_per_year" p0 = b ∧
      ∃ a, ∀ a2 b2,
        sse (pixelPairs wL p0) a b ≤ sse (pixelPairs wL p0) a2 b2 :=
  c2_slope_is_leastSquares wCat wSl wSl_eq wL wL_eq p0 wSl_mask_p0

/-! ## Nodata handling (claim C10) -/

theorem getD_mem_general (l : List ℚ) (i : ℕ) (d : ℚ) (h : i < l.length) :
    l.getD i d ∈ l := by
  induction l generalizing i with
  | nil => simp at h
  | cons x xs ih =>
    cases i with
    | zero => simp [List.getD]
    | succ n =>
      show xs.getD n d ∈ x :: xs
      exact List.mem_cons_of_mem _ (ih n (by simpa using h))

theorem mem_insertSorted (x a : ℚ) (l : List ℚ) :
    a ∈ insertSorted x l ↔ a = x ∨ a ∈ l := by
  induction l with
  | nil => simp [insertSorted]
  | cons y ys ih =>
    unfold insertSorted
    split
    · simp [List.mem_cons]
    · simp only [List.mem_cons, ih]
      tauto

theorem mem_sortQ (a : ℚ) (l : List ℚ) : a ∈ sortQ l ↔ a ∈ l := by
  induction l with
  | nil => simp [sortQ]
  | cons x xs ih =>
    unfold sortQ
    rw [mem_insertSorted]
    simp [ih]

theorem length_insertSorted (x : ℚ) (l : List ℚ) :
    (insertSorted x l).length = l.length + 1 := by
  induction l with
  | nil => rfl
  | cons y ys ih =>
    unfold insertSorted
    split
    · rfl
    · simp [ih]

theorem length_sortQ (l : List ℚ) : (sortQ l).length = l.length := by
  induction l with
  | nil => rfl
  | cons x xs ih =>
    unfold sortQ
    rw [length_insertSorted, ih]
    rfl

theorem med_isSome (l : List ℚ) (hl : l ≠ []) : ∃ m, med l = some m := by
  cases l with
  | nil => exact absurd rfl hl
  | cons x xs => exact ⟨_, rfl⟩

/-- The median of a list is bounded below by any lower bound of the list. -/
theorem med_lb (l : List ℚ) (lo : ℚ) (hbound : ∀ x ∈ l, lo ≤ x) (m : ℚ)
    (hm : med l = some m) : lo ≤ m := by
  cases l with
  | nil => cases hm
  | cons x xs =>
    unfold med at hm
    injection hm with hm
    subst hm
    have hgb : ∀ i (d : ℚ), i < (x :: xs).length →
        lo ≤ (sortQ (x :: xs)).getD i d := by
      intro i d hi2
      refine hbound _ ((mem_sortQ _ _).mp
        (getD_mem_general _ i d ?_))
      rw [length_sortQ]
      exact hi2
    have hlen : 0 < (x :: xs).length := by simp
    split
    · exact hgb _ 0 (by omega)
    · rename_i hpar
      have h1 := hgb ((x :: xs).length / 2 - 1) 0 (by omega)
      have h2 := hgb ((x :: xs).length / 2) 0 (by omega)
      linarith

theorem foldl_min_mem (l : List ℚ) (x : ℚ) :
    l.foldl min x = x ∨ l.foldl min x ∈ l := by
  induction l generalizing x with
  | nil => exact Or.inl rfl
  | cons y ys ih =>
    show ys.foldl min (min x y) = x ∨ _ ∈ y :: ys
    rcases ih (min x y) with h | h
    · rcases min_choice x y with hc | hc
      · exact Or.inl (by rw [h, hc])
      · refine Or.inr ?_
        show ys.foldl min (min x y) ∈ y :: ys
        rw [h, hc]
        exact List.mem_cons_self _ _
    · exact Or.inr (List.mem_cons_of_mem _ h)

theorem foldl_min_le (l : List ℚ) (x : ℚ) :
    l.foldl min x ≤ x ∧ ∀ y ∈ l, l.foldl min x ≤ y := by
  induction l generalizing x with
  | nil => exact ⟨le_refl x, by simp⟩
  | cons y ys ih =>
    rcases ih (min x y) with ⟨h1, h2⟩
    refine ⟨le_trans h1 (min_le_left x y), ?_⟩
    intro z hz
    rcases List.mem_cons.mp hz with rfl | hz2
    · exact le_trans h1 (min_le_right x _)
    · exact h2 z hz2

/-- For a list bounded below by `c`, the minimum equals `c` iff `c` is in
the list. -/
theorem minList_eq_iff (l : List ℚ) (c : ℚ) (hlb : ∀ x ∈ l, c ≤ x) (m : ℚ)
    (hm : minList l = some m) : m = c ↔ c ∈ l := by
  cases l with
  | nil => cases hm
  | cons x xs =>
    injection hm with hm
    subst hm
    constructor
    · intro heq
      rw [← heq]
      rcases foldl_min_mem xs x with h | h
      · rw [h]
        exact List.mem_cons_self _ _
      · exact List.mem_cons_of_mem _ h
    · intro hc
      have hle := foldl_min_le xs x
      have h1 : xs.foldl min x ≤ c := by
        rcases List.mem_cons.mp hc with rfl | h
        · exact hle.1
        · exact hle.2 _ h
      have h2 : c ≤ xs.foldl min x := by
        rcases foldl_min_mem xs x with h | h
        · rw [h]
          exact hlb x (List.mem_cons_self _ _)
        · exact hlb _ (List.mem_cons_of_mem _ h)
      exact le_antisymm h1 h2

theorem bandVals_mem (imgs : List EEImage) (b : String) (p : Pix) (x : ℚ) :
    x ∈ bandVals imgs b p ↔
      ∃ i ∈ imgs, i.mask p = true ∧ i.val b p = x := by
  unfold bandVals
  rw [List.mem_filterMap]
  constructor
  · rintro ⟨i, hi, hix⟩
    by_cases hm : i.mask p
    · rw [if_pos hm] at hix
      exact ⟨i, hi, hm, Option.some_inj.mp hix⟩
    · rw [if_neg hm] at hix
      cases hix
  · rintro ⟨i, hi, hm, rfl⟩
    exact ⟨i, hi, by rw [if_pos hm]⟩

theorem normdiff_lb (a b : ℚ) (ha : 0 ≤ a) (hb : 0 ≤ b) :
    -1 ≤ (a - b) / (a + b) := by
  rcases eq_or_lt_of_le (by positivity : (0 : ℚ) ≤ a + b) with h | h
  · rw [← h, div_zero]
    norm_num
  · rw [le_div_iff h]
    linarith

/-- Every NDVI value of a per-year collection image is at least −1 when the
raw band values are nonnegative. -/
theorem collection_val_lb (cat : Catalog)
    (hnn : ∀ r ∈ cat "COPERNICUS/S2_SR", ∀ b p, 0 ≤ r.img.val b p)
    (y : ℚ) (col : List EEImage) (hcol : collectionForYear cat y = some col) :
    ∀ i ∈ col, ∀ p, -1 ≤ i.val "NDVI" p := by
  intro i hi p
  rcases (collectionForYear_mem cat y col hcol i).mp hi with
    ⟨r, hr, _, _, m, hmm, hadd⟩
  rcases maskS2SR_fields _ _ hmm with ⟨_, hv, _, _⟩
  rw [(addNDVIBands_fields m i hadd).2.2 p]
  split
  · rw [hv]
    linarith [hnn r hr "NDVI" p]
  · rw [hv]
    exact normdiff_lb _ _ (hnn r hr "B8" p) (hnn r hr "B4" p)

/-- Every valid pixel of a yearly image has NDVI value at least −9999. -/
theorem yearly_val_lb (cat : Catalog)
    (hnn : ∀ r ∈ cat "COPERNICUS/S2_SR", ∀ b p, 0 ≤ r.img.val b p)
    (y : ℚ) (im : EEImage) (him : yearlyImage cat y = some im) (p : Pix)
    (hm : im.mask p = true) : -9999 ≤ im.val "NDVI" p := by
  rcases yearlyImage_eq cat y im him with ⟨col, sel, hcol, hsel, heq⟩
  have hfld := yearlyImage_fields cat y im col hcol him
  rcases Nat.eq_zero_or_pos col.length with hc | hc
  · rw [(hfld.2 hc p).2]
  · have hmask := (hfld.1 hc p).1
    rw [hm] at hmask
    have hne : bandVals col "NDVI" p ≠ [] := by
      intro hnil
      rw [hnil] at hmask
      simp at hmask
    rcases med_isSome _ hne with ⟨mv, hmv⟩
    rw [(hfld.1 hc p).2, hmv]
    have hlo : -1 ≤ mv := by
      refine med_lb _ _ ?_ mv hmv
      intro x hx
      rcases (bandVals_mem col "NDVI" p x).mp hx with ⟨i, hi, _, rfl⟩
      exact collection_val_lb cat hnn y col hcol i hi p
    show (-9999 : ℚ) ≤ mv
    linarith

/-- C10: (a) empty-year composites are constant −9999 NDVI images clipped to
the region, so the year collection always has yearEnd − yearStart + 1
images; (b) with nonnegative raw band values (as reflectance bands are) the
minimum-NDVI-across-years equals −9999 at a pixel exactly when some year's
composite is −9999 there; and (c) the final slope map is masked out at every
such pixel. -/
theorem c10_nodata_years (cat : Catalog) (L : List EEImage)
    (hnn : ∀ r ∈ cat "COPERNICUS/S2_SR", ∀ b p, 0 ≤ r.img.val b p)
    (hL : yearlyListDef cat = some L) (sl : EEImage)
    (hsl : slopeFinal cat = some sl) :
    L.length = years.length ∧
    ((years.length : ℚ) = yearEnd - yearStart + 1) ∧
    (∀ y col im, collectionForYear cat y = some col → col = [] →
      yearlyImage cat y = some im →
      ∀ p, im.val "NDVI" p = -9999 ∧ im.mask p = region.containsB p) ∧
    (∀ p m, minList (bandVals L "NDVI" p) = some m →
      (m = -9999 ↔ ∃ im ∈ L, im.mask p = true ∧ im.val "NDVI" p = -9999)) ∧
    (∀ p, (∃ im ∈ L, im.mask p = true ∧ im.val "NDVI" p = -9999) →
      sl.mask p = false) := by
  have hLlb : ∀ x ∈ L, ∀ p, x.mask p = true → -9999 ≤ x.val "NDVI" p := by
    intro x hx p hm
    rcases (optMap_mem _ hL).mp hx with ⟨y, _, hy⟩
    exact yearly_val_lb cat hnn y x hy p hm
  have hbvlb : ∀ p, ∀ x ∈ bandVals L "NDVI" p, (-9999 : ℚ) ≤ x := by
    intro p x hx
    rcases (bandVals_mem L "NDVI" p x).mp hx with ⟨i, hi, hm, rfl⟩
    exact hLlb i hi p hm
  have hminiff : ∀ p m, minList (bandVals L "NDVI" p) = some m →
      (m = -9999 ↔ ∃ im ∈ L, im.mask p = true ∧ im.val "NDVI" p = -9999) := by
    intro p m hm
    rw [minList_eq_iff _ _ (hbvlb p) m hm, bandVals_mem]
  refine ⟨optMap_length _ hL, ?_, ?_, hminiff, ?_⟩
  · have hlen : years.length = 6 := by
      rw [years_eq]
      rfl
    rw [hlen]
    norm_num [yearStart, yearEnd]
  · intro y col im hcol hnil him p
    rcases yearlyImage_fields cat y im col hcol him with ⟨_, hz⟩
    have hc : col.length = 0 := by rw [hnil]; rfl
    exact ⟨(hz hc p).2, (hz hc p).1⟩
  · intro p hex
    rcases slopeFinal_eq cat sl hsl with ⟨L2, sel, hL2, hsel, _, _, hmask⟩
    have hL2w : L2 = L := by
      rw [hL] at hL2
      exact (Option.some_inj.mp hL2).symm
    subst hL2w
    have hbv := bandVals_select L2 sel hsel p
    have hne : bandVals L2 "NDVI" p ≠ [] := by
      rcases hex with ⟨im, hi, hm, hv⟩
      intro hnil
      have : im.val "NDVI" p ∈ bandVals L2 "NDVI" p :=
        (bandVals_mem _ _ _ _).mpr ⟨im, hi, hm, rfl⟩
      rw [hnil] at this
      cases this
    have hminsome : ∃ m, minList (bandVals L2 "NDVI" p) = some m := by
      cases hbl : bandVals L2 "NDVI" p with
      | nil => exact absurd hbl hne
      | cons a as => exact ⟨_, rfl⟩
    rcases hminsome with ⟨m, hmin⟩
    have hm9999 : m = -9999 := (hminiff p m hmin).mpr hex
    rw [hmask p, hbv, hmin]
    subst hm9999
    simp

theorem emptyCat_nonneg :
    ∀ r ∈ emptyCat "COPERNICUS/S2_SR", ∀ b p, 0 ≤ r.img.val b p := by
  intro r hr
  simp [emptyCat] at hr

/-- C10 witness at the empty catalog. -/
theorem c10_witness :
    wLe.length = years.length ∧
    ((years.length : ℚ) = yearEnd - yearStart + 1) ∧
    (∀ y col im, collectionForYear emptyCat y = some col → col = [] →
      yearlyImage emptyCat y = some im →
      ∀ p, im.val "NDVI" p = -9999 ∧ im.mask p = region.containsB p) ∧
    (∀ p m, minList (bandVals wLe "NDVI" p) = some m →
      (m = -9999 ↔ ∃ im ∈ wLe, im.mask p = true ∧ im.val "NDVI" p = -9999)) ∧
    (∀ p, (∃ im ∈ wLe, im.mask p = true ∧ im.val "NDVI" p = -9999) →
      wSle.mask p = false) :=
  c10_nodata_years emptyCat wLe emptyCat_nonneg wLe_eq wSle wSle_eq
